import Mathlib

/-!
Verification development for the Kalshi correlation-analysis engine.

The TypeScript sources are shallowly embedded:
* prices are modelled as exact rationals (`ℚ`), timestamps as integers (`ℤ`);
* the Pearson coefficient, which divides by a square root, lives in `ℝ`;
* the JavaScript `Map` used by the aligner and the deduplicator is modelled
  as an association list with JavaScript `Map` semantics (`set` overwrites in
  place, new keys are appended, `get` finds the unique entry);
* `try`/`catch` around the fetch collaborator is modelled with `Except`.
-/

/-- OHLC price block of one candlestick (`OHLCData` in the source). -/
structure OHLCData where
  openP : ℚ
  high : ℚ
  low : ℚ
  close : ℚ
  deriving DecidableEq

/-- One candlestick (`CandlestickData` in the source); `price`, `yes_ask`,
`yes_bid` are optional. -/
structure CandlestickData where
  end_period_ts : ℤ
  open_interest : ℚ
  price : Option OHLCData
  volume : ℚ
  yes_ask : Option OHLCData
  yes_bid : Option OHLCData
  deriving DecidableEq

/-- A fetched market time series (`TimeSeriesData` in the source). -/
structure TimeSeriesData where
  marketTicker : String
  eventTicker : String
  eventTitle : Option String
  title : Option String
  timestamps : List ℤ
  closePrices : List ℚ
  volumes : List ℚ
  deriving DecidableEq

/-- The result of aligning two time series (the record literal returned by
`alignTimeSeries`). -/
structure AlignedPair where
  prices1 : List ℚ
  prices2 : List ℚ
  timestamps : List ℤ
  deriving DecidableEq

/-- One emitted correlation (`CorrelationResult` in the source).  The
`correlation` field is a real number because the Pearson coefficient divides
by a square root. -/
structure CorrelationResult where
  market1 : String
  market2 : String
  event1Title : Option String := none
  event2Title : Option String := none
  correlation : ℝ
  pValue : Option ℝ := none
  dataPoints : ℕ

/-- A market reference handed to the engine (element type of the `markets`
argument of `analyzeMultipleMarkets`). -/
structure MarketRef where
  eventTicker : String
  marketTicker : String
  title : String
  eventTitle : Option String
  deriving DecidableEq

/-- `transformCandlestickData` from `candlestick-plotter.ts`: fills in a
missing/zero close price from `yes_ask`/`yes_bid` (average when both are
present), defaulting to an all-zero price block.  Note the source guard
`candle.price?.close` is a JavaScript truthiness test, so a present price
with close `0` also falls through to the fallbacks. -/
def transformCandlestickData (candlesticks : List CandlestickData) : List CandlestickData :=
  candlesticks.map (fun candle =>
    match candle.price with
    | some p =>
      if p.close ≠ 0 then candle
      else
        match candle.yes_ask, candle.yes_bid with
        | some a, some b =>
          { candle with price := some { openP := (a.openP + b.openP) / 2,
                                        high := (a.high + b.high) / 2,
                                        low := (a.low + b.low) / 2,
                                        close := (a.close + b.close) / 2 } }
        | some a, none => { candle with price := some a }
        | none, some b => { candle with price := some b }
        | none, none =>
          { candle with price := some { openP := 0, high := 0, low := 0, close := 0 } }
    | none =>
      match candle.yes_ask, candle.yes_bid with
      | some a, some b =>
        { candle with price := some { openP := (a.openP + b.openP) / 2,
                                      high := (a.high + b.high) / 2,
                                      low := (a.low + b.low) / 2,
                                      close := (a.close + b.close) / 2 } }
      | some a, none => { candle with price := some a }
      | none, some b => { candle with price := some b }
      | none, none =>
        { candle with price := some { openP := 0, high := 0, low := 0, close := 0 } })

/-- `fetchMarketTimeSeries`: the candlestick response of the fetch
collaborator is passed in explicitly; `.error` models a thrown transport
failure, which the surrounding `try`/`catch` turns into `null` (`none`).
`.ok none` models a missing/empty `response.candlesticks` field. -/
def fetchMarketTimeSeries (response : Except String (Option (List CandlestickData)))
    (m : MarketRef) : Option TimeSeriesData :=
  match response with
  | .error _ => none
  | .ok none => none
  | .ok (some candlesticksRaw) =>
    if candlesticksRaw.length = 0 then none
    else
      let candlesticks := transformCandlestickData candlesticksRaw
      let valid := candlesticks.filterMap (fun candle =>
        match candle.price with
        | some p => if 0 < p.close then some (candle.end_period_ts, p.close / 100, candle.volume) else none
        | none => none)
      if valid.length = 0 then none
      else some { marketTicker := m.marketTicker, eventTicker := m.eventTicker,
                  eventTitle := m.eventTitle, title := some m.title,
                  timestamps := valid.map (fun v => v.1),
                  closePrices := valid.map (fun v => v.2.1),
                  volumes := valid.map (fun v => v.2.2) }

/-- `alignTimeSeries`: builds a timestamp → price map from `series1`
(`Map.set` overwrites, so a later duplicate timestamp wins — modelled by
prepending and using first-match lookup), then scans `series2` in order
keeping matching timestamps; fails when fewer than 3 timestamps match. -/
def alignTimeSeries (series1 series2 : TimeSeriesData) : Option AlignedPair :=
  let series2Map := (series1.timestamps.zip series1.closePrices).foldl
    (fun m p => p :: m) ([] : List (ℤ × ℚ))
  let matched := (series2.timestamps.zip series2.closePrices).filterMap (fun p =>
    match series2Map.lookup p.1 with
    | some price1 => some (p.1, price1, p.2)
    | none => none)
  if matched.length < 3 then none
  else some { prices1 := matched.map (fun t => t.2.1),
              prices2 := matched.map (fun t => t.2.2),
              timestamps := matched.map (fun t => t.1) }

/-- `calculateCorrelation`: the Pearson coefficient, with the source's two
guards (mismatched/zero length, zero denominator). -/
noncomputable def calculateCorrelation (x y : List ℚ) : ℝ :=
  if x.length ≠ y.length ∨ x.length = 0 then 0
  else
    let n : ℚ := x.length
    let sumX := x.sum
    let sumY := y.sum
    let sumXY := ((x.zip y).map (fun p => p.1 * p.2)).sum
    let sumX2 := (x.map (fun xi => xi * xi)).sum
    let sumY2 := (y.map (fun yi => yi * yi)).sum
    let numerator := n * sumXY - sumX * sumY
    let denominator := Real.sqrt (((n * sumX2 - sumX * sumX) * (n * sumY2 - sumY * sumY) : ℚ))
    if denominator = 0 then 0 else (numerator : ℝ) / denominator

/-- `calculateReturns`: period-over-period returns, with division by a zero
previous price replaced by `0`. -/
def calculateReturns : List ℚ → List ℚ
  | p0 :: p1 :: rest =>
    (if p0 ≠ 0 then (p1 - p0) / p0 else 0) :: calculateReturns (p1 :: rest)
  | _ => []

/-- `calculateRollingCorrelation`: Pearson correlation of each right-aligned
window `x.slice(i - window, i)`, `y.slice(i - window, i)` for
`i = window, …, x.length`. -/
noncomputable def calculateRollingCorrelation (x y : List ℚ) (window : ℕ) : List ℝ :=
  (List.range' window (x.length + 1 - window)).map (fun i =>
    calculateCorrelation ((x.take i).drop (i - window)) ((y.take i).drop (i - window)))

/-- Body of the inner pair loop of `analyzeMultipleMarkets` after the
same-event check: align, require at least 10 aligned samples, compute
returns, and emit a record when both returns sequences are non-empty. -/
noncomputable def pairStep (series1 series2 : TimeSeriesData) : Option CorrelationResult :=
  match alignTimeSeries series1 series2 with
  | none => none
  | some aligned =>
    if aligned.timestamps.length < 10 then none
    else
      let returns1 := calculateReturns aligned.prices1
      let returns2 := calculateReturns aligned.prices2
      if 0 < returns1.length ∧ 0 < returns2.length then
        some { market1 := series1.marketTicker, market2 := series2.marketTicker,
               event1Title := series1.eventTitle, event2Title := series2.eventTitle,
               correlation := calculateCorrelation returns1 returns2,
               dataPoints := aligned.timestamps.length }
      else none

/-- Inner loop of `analyzeMultipleMarkets`: pairs `series1` with each later
series, first skipping (and counting) same-event pairs.  Returns the emitted
records in order together with the same-event skip count. -/
noncomputable def innerPairLoop (series1 : TimeSeriesData) :
    List TimeSeriesData → List CorrelationResult × ℕ
  | [] => ([], 0)
  | series2 :: rest =>
    let tail := innerPairLoop series1 rest
    if series1.eventTicker = series2.eventTicker then (tail.1, tail.2 + 1)
    else
      match pairStep series1 series2 with
      | some r => (r :: tail.1, tail.2)
      | none => (tail.1, tail.2)

/-- The double loop of `analyzeMultipleMarkets` over the successfully fetched
time series: all pairs `(i, j)` with `i < j` in loop order. -/
noncomputable def analyzePairsLoop : List TimeSeriesData → List CorrelationResult × ℕ
  | [] => ([], 0)
  | series1 :: rest =>
    let inner := innerPairLoop series1 rest
    let outer := analyzePairsLoop rest
    (inner.1 ++ outer.1, inner.2 + outer.2)

/-- `analyzeMultipleMarkets`: fetches every market's series (keeping the
successful ones, in order) and runs the pairwise loop.  The fetch
collaborator's response for each market is passed in as a function. -/
noncomputable def analyzeMultipleMarkets
    (response : MarketRef → Except String (Option (List CandlestickData)))
    (markets : List MarketRef) : List CorrelationResult :=
  let timeSeriesData := markets.filterMap (fun m => fetchMarketTimeSeries (response m) m)
  (analyzePairsLoop timeSeriesData).1

/-- The windowed batch run of `main` in `index.ts`: the first window is
`slice(0, windowSize)` (or everything when fewer than `windowSize` markets),
and when more than `windowSize` markets exist a second window
`slice(windowSize, min(2·windowSize, length))` is analyzed provided it has at
least 2 elements.  No further windows are ever formed. -/
def analysisWindows (allMarkets : List α) (windowSize : ℕ) : List (List α) :=
  let firstWindow :=
    if windowSize ≤ allMarkets.length then allMarkets.take windowSize else allMarkets
  if windowSize < allMarkets.length then
    let endIdx := min (windowSize * 2) allMarkets.length
    let secondWindow := (allMarkets.take endIdx).drop windowSize
    if 2 ≤ secondWindow.length then [firstWindow, secondWindow] else [firstWindow]
  else [firstWindow]

/-- The records accumulated by `main`: the engine is invoked once per
analysis window and the outputs are concatenated. -/
noncomputable def windowedRunRecords
    (response : MarketRef → Except String (Option (List CandlestickData)))
    (allMarkets : List MarketRef) (windowSize : ℕ) : List CorrelationResult :=
  ((analysisWindows allMarkets windowSize).map (analyzeMultipleMarkets response)).flatten

/-- The order-independent key of `deduplicateCorrelations`:
the two market tickers joined in canonical (string-sorted) order. -/
def pairKey (corr : CorrelationResult) : String :=
  if corr.market1 < corr.market2
  then corr.market1 ++ "|" ++ corr.market2
  else corr.market2 ++ "|" ++ corr.market1

/-- JavaScript `Map.set` on an association list: overwrites an existing key
in place, otherwise appends the new entry. -/
def mapSet (m : List (String × CorrelationResult)) (k : String) (v : CorrelationResult) :
    List (String × CorrelationResult) :=
  if (m.map Prod.fst).contains k
  then m.map (fun p => if p.1 = k then (k, v) else p)
  else m ++ [(k, v)]

/-- Loop body of `deduplicateCorrelations`: an incoming record replaces the
stored one for its pair key only when it has strictly more data points, or
equally many and a strictly larger absolute correlation. -/
noncomputable def dedupStep (m : List (String × CorrelationResult)) (corr : CorrelationResult) :
    List (String × CorrelationResult) :=
  let key := pairKey corr
  match m.lookup key with
  | none => mapSet m key corr
  | some existing =>
    if existing.dataPoints < corr.dataPoints ∨
        (corr.dataPoints = existing.dataPoints ∧ |existing.correlation| < |corr.correlation|)
    then mapSet m key corr
    else m

/-- `deduplicateCorrelations`: fold the records through the keyed map and
return the map's values (in key-insertion order, as a JavaScript `Map`
iterates). -/
noncomputable def deduplicateCorrelations (correlations : List CorrelationResult) :
    List CorrelationResult :=
  (correlations.foldl dedupStep []).map Prod.snd

/-- All unordered pairs of list elements, each visited exactly once in the
`(i, j), i < j` loop order of `analyzeMultipleMarkets`. -/
def upairs : List α → List (α × α)
  | [] => []
  | a :: as => (as.map (fun b => (a, b))) ++ upairs as

section LookupHelpers

variable {κ : Type} {β : Type} [BEq κ] [LawfulBEq κ]

theorem lookup_cons_self (k : κ) (v : β) (l : List (κ × β)) :
    ((k, v) :: l).lookup k = some v := by
  simp [List.lookup]

theorem lookup_cons_ne (k a : κ) (v : β) (l : List (κ × β)) (h : k ≠ a) :
    ((a, v) :: l).lookup k = l.lookup k := by
  simp [List.lookup, beq_eq_false_iff_ne.mpr h]

theorem lookup_eq_none_iff (k : κ) (l : List (κ × β)) :
    l.lookup k = none ↔ k ∉ l.map Prod.fst := by
  induction l with
  | nil => simp [List.lookup]
  | cons p t ih =>
    by_cases h : k = p.1
    · subst h
      simp only [List.map_cons, List.mem_cons, true_or, not_true_eq_false, iff_false]
      simp [List.lookup]
    · rcases p with ⟨a, v⟩
      rw [lookup_cons_ne k a v t h]
      simp [ih, h]

theorem lookup_mem (k : κ) (v : β) (l : List (κ × β)) (h : l.lookup k = some v) :
    (k, v) ∈ l := by
  induction l with
  | nil => simp [List.lookup] at h
  | cons p t ih =>
    by_cases hk : k = p.1
    · subst hk
      rcases p with ⟨a, v'⟩
      rw [lookup_cons_self] at h
      simp only [Option.some.injEq] at h
      subst h
      exact List.mem_cons_self _ _
    · rcases p with ⟨a, v'⟩
      rw [lookup_cons_ne k a v' t hk] at h
      exact List.mem_cons_of_mem _ (ih h)

theorem lookup_append_left (k : κ) (l₁ l₂ : List (κ × β)) (h : k ∈ l₁.map Prod.fst) :
    (l₁ ++ l₂).lookup k = l₁.lookup k := by
  induction l₁ with
  | nil => simp at h
  | cons p t ih =>
    rcases p with ⟨a, v⟩
    by_cases hk : k = a
    · subst hk
      rw [List.cons_append, lookup_cons_self, lookup_cons_self]
    · rw [List.cons_append, lookup_cons_ne k a v _ hk, lookup_cons_ne k a v t hk]
      exact ih (by simpa [hk] using h)

theorem lookup_append_right (k : κ) (l₁ l₂ : List (κ × β)) (h : k ∉ l₁.map Prod.fst) :
    (l₁ ++ l₂).lookup k = l₂.lookup k := by
  induction l₁ with
  | nil => simp
  | cons p t ih =>
    rcases p with ⟨a, v⟩
    simp only [List.map_cons, List.mem_cons, not_or] at h
    rw [List.cons_append, lookup_cons_ne k a v _ h.1]
    exact ih h.2

theorem lookup_reverse_of_nodup (k : κ) (l : List (κ × β))
    (h : (l.map Prod.fst).Nodup) : l.reverse.lookup k = l.lookup k := by
  induction l with
  | nil => simp
  | cons p t ih =>
    rcases p with ⟨a, v⟩
    simp only [List.map_cons, List.nodup_cons] at h
    rw [List.reverse_cons]
    by_cases hk : k = a
    · subst hk
      rw [lookup_cons_self, lookup_append_right]
      · simp [List.lookup]
      · simpa using h.1
    · rw [lookup_cons_ne k a v t hk]
      by_cases hmem : k ∈ t.map Prod.fst
      · rw [lookup_append_left _ _ _ (by simpa using hmem)]
        exact ih h.2
      · rw [lookup_append_right _ _ _ (by simpa using hmem)]
        rw [lookup_cons_ne k a v [] hk]
        simp [List.lookup, (lookup_eq_none_iff k t).mpr hmem]

end LookupHelpers

theorem foldl_cons_eq_reverse_append {α : Type} (l acc : List α) :
    l.foldl (fun m p => p :: m) acc = l.reverse ++ acc := by
  induction l generalizing acc with
  | nil => simp
  | cons a t ih => simp [List.foldl_cons, ih, List.reverse_cons]

theorem calculateReturns_length (p : List ℚ) :
    (calculateReturns p).length = p.length - 1 := by
  induction p with
  | nil => rfl
  | cons p0 t ih =>
    cases t with
    | nil => rfl
    | cons p1 rest =>
      rw [calculateReturns]
      simpa [Nat.succ_sub_one] using ih

theorem calculateReturns_getElem (p : List ℚ) (i : ℕ) (h : i + 1 < p.length) :
    (calculateReturns p)[i]? =
      some (if p.getD i 0 ≠ 0 then (p.getD (i + 1) 0 - p.getD i 0) / p.getD i 0 else 0) := by
  induction p generalizing i with
  | nil => simp at h
  | cons p0 t ih =>
    cases t with
    | nil => simp at h
    | cons p1 rest =>
      rw [calculateReturns]
      cases i with
      | zero => simp
      | succ j =>
        simp only [List.getElem?_cons_succ, List.getD_cons_succ]
        exact ih j (by simpa [Nat.succ_lt_succ_iff] using h)

/-- Claim C6: `calculateReturns` maps an `n`-element price list to the
`max (n-1) 0` period returns `(p[i] - p[i-1]) / p[i-1]`, emitting `0` where
`p[i-1] = 0`; in particular `returns [100, 110, 99] = [0.10, -0.1]` and
`returns [0, 5] = [0]`. -/
theorem calculateReturns_spec :
    (∀ p : List ℚ, (calculateReturns p).length = p.length - 1)
  ∧ (∀ (p : List ℚ) (i : ℕ), i + 1 < p.length →
      (calculateReturns p)[i]? =
        some (if p.getD i 0 ≠ 0 then (p.getD (i + 1) 0 - p.getD i 0) / p.getD i 0 else 0))
  ∧ calculateReturns [100, 110, 99] = [1/10, -(1/10)]
  ∧ calculateReturns [0, 5] = [0] := by
  refine ⟨calculateReturns_length, calculateReturns_getElem, ?_, ?_⟩
  · simp [calculateReturns]
    norm_num
  · simp [calculateReturns]

/-- Witness for claim C6 at the concrete price list `[100, 110, 99]`. -/
theorem calculateReturns_spec_witness :
    (calculateReturns [100, 110, 99])[0]? =
      some (if ([100, 110, 99] : List ℚ).getD 0 0 ≠ 0 then
        (([100, 110, 99] : List ℚ).getD 1 0 - ([100, 110, 99] : List ℚ).getD 0 0) /
          ([100, 110, 99] : List ℚ).getD 0 0 else 0) :=
  calculateReturns_spec.2.1 [100, 110, 99] 0 (by norm_num)

/-- The numerator of the spec's Pearson formula, `n·Σxy − Σx·Σy`. -/
def pearsonNum (x y : List ℚ) : ℚ :=
  (x.length : ℚ) * ((x.zip y).map (fun p => p.1 * p.2)).sum - x.sum * y.sum

/-- The square of the denominator of the spec's Pearson formula,
`(n·Σx² − (Σx)²)·(n·Σy² − (Σy)²)`. -/
def pearsonDenSq (x y : List ℚ) : ℚ :=
  ((x.length : ℚ) * ((x.map (fun xi => xi * xi)).sum) - x.sum * x.sum) *
  ((y.length : ℚ) * ((y.map (fun yi => yi * yi)).sum) - y.sum * y.sum)

theorem calculateCorrelation_eq (x y : List ℚ) :
    calculateCorrelation x y =
      if x.length ≠ y.length ∨ x.length = 0 then 0
      else if Real.sqrt ((pearsonDenSq x y : ℚ) : ℝ) = 0 then 0
      else ((pearsonNum x y : ℚ) : ℝ) / Real.sqrt ((pearsonDenSq x y : ℚ) : ℝ) := by
  simp only [calculateCorrelation, pearsonNum, pearsonDenSq]
  by_cases h : x.length ≠ y.length ∨ x.length = 0
  · rw [if_pos h, if_pos h]
  · have hxy : x.length = y.length := not_not.mp (not_or.mp h).1
    rw [if_neg h, if_neg h, hxy]

/-- Claim C1: `calculateCorrelation` returns
`(n·Σxy − Σx·Σy) / sqrt((n·Σx² − (Σx)²)·(n·Σy² − (Σy)²))` whenever the two
lists have the same nonzero length and that denominator is nonzero, and
returns `0` whenever the lengths differ, the length is `0`, or the
denominator is exactly `0`. -/
theorem calculateCorrelation_spec (x y : List ℚ) :
    (x.length = y.length → x ≠ [] → Real.sqrt ((pearsonDenSq x y : ℚ) : ℝ) ≠ 0 →
      calculateCorrelation x y =
        ((pearsonNum x y : ℚ) : ℝ) / Real.sqrt ((pearsonDenSq x y : ℚ) : ℝ))
  ∧ ((x.length ≠ y.length ∨ x = [] ∨ Real.sqrt ((pearsonDenSq x y : ℚ) : ℝ) = 0) →
      calculateCorrelation x y = 0) := by
  constructor
  · intro hlen hx hden
    rw [calculateCorrelation_eq, if_neg, if_neg hden]
    push_neg
    exact ⟨hlen, by simpa [List.length_eq_zero] using hx⟩
  · intro h
    rw [calculateCorrelation_eq]
    rcases h with h | h | h
    · rw [if_pos (Or.inl h)]
    · rw [if_pos (Or.inr (by simp [h]))]
    · by_cases h0 : x.length ≠ y.length ∨ x.length = 0
      · rw [if_pos h0]
      · rw [if_neg h0, if_pos h]

/-- Witness for claim C1 at `x = y = [0, 1]`, where the denominator is
`sqrt 1 = 1 ≠ 0`. -/
theorem calculateCorrelation_spec_witness :
    calculateCorrelation [0, 1] [0, 1] =
      ((pearsonNum [0, 1] [0, 1] : ℚ) : ℝ) /
        Real.sqrt ((pearsonDenSq [0, 1] [0, 1] : ℚ) : ℝ) :=
  (calculateCorrelation_spec [0, 1] [0, 1]).1 rfl (by simp)
    (by
      have h : ((pearsonDenSq [0, 1] [0, 1] : ℚ) : ℝ) = 1 := by
        norm_num [pearsonDenSq]
      rw [h, Real.sqrt_one]
      exact one_ne_zero)

/-- Claim C8: for equal-length inputs, `calculateRollingCorrelation` has
length `len(x) − w + 1` when `len(x) ≥ w` (and is empty otherwise), and each
entry is exactly the batch Pearson function applied to the corresponding
`w`-element slices of `x` and `y`. -/
theorem calculateRollingCorrelation_spec (x y : List ℚ) (w : ℕ)
    (hlen : x.length = y.length) :
    (w ≤ x.length → (calculateRollingCorrelation x y w).length = x.length - w + 1)
  ∧ (x.length < w → calculateRollingCorrelation x y w = [])
  ∧ (∀ k : ℕ, (calculateRollingCorrelation x y w)[k]? =
      if w + k ≤ x.length then
        some (calculateCorrelation ((x.take (w + k)).drop k) ((y.take (w + k)).drop k))
      else none) := by
  refine ⟨?_, ?_, ?_⟩
  · intro hw
    simp only [calculateRollingCorrelation, List.length_map, List.length_range']
    omega
  · intro hw
    have h0 : x.length + 1 - w = 0 := by omega
    simp [calculateRollingCorrelation, h0]
  · intro k
    by_cases hk : k < x.length + 1 - w
    · rw [if_pos (by omega : w + k ≤ x.length)]
      simp only [calculateRollingCorrelation, List.getElem?_map,
        List.getElem?_range' _ _ hk, one_mul]
      have h1 : w + k - w = k := by omega
      simp only [Option.map_some', h1]
    · rw [if_neg (by omega : ¬ w + k ≤ x.length)]
      refine List.getElem?_eq_none ?_
      simp only [calculateRollingCorrelation, List.length_map, List.length_range']
      omega

/-- Witness for claim C8 at `x = y = [1, 2, 3]`, `w = 2`. -/
theorem calculateRollingCorrelation_spec_witness :
    (calculateRollingCorrelation [1, 2, 3] [1, 2, 3] 2).length = 3 - 2 + 1 :=
  (calculateRollingCorrelation_spec [1, 2, 3] [1, 2, 3] 2 rfl).1 (by norm_num)

theorem filterMap_lookup_eq_map_filter (zmap l : List (ℤ × ℚ)) :
    (l.filterMap (fun p =>
      match zmap.lookup p.1 with
      | some price1 => some (p.1, price1, p.2)
      | none => none)) =
    (l.filter (fun p => p.1 ∈ zmap.map Prod.fst)).map
      (fun p => (p.1, (zmap.lookup p.1).getD 0, p.2)) := by
  induction l with
  | nil => rfl
  | cons p t ih =>
    rw [List.filterMap_cons, List.filter_cons]
    cases h : zmap.lookup p.1 with
    | none =>
      have hmem : p.1 ∉ zmap.map Prod.fst := (lookup_eq_none_iff p.1 zmap).mp h
      simp [hmem, ih]
    | some v =>
      have hmem : p.1 ∈ zmap.map Prod.fst := by
        by_contra hc
        rw [(lookup_eq_none_iff p.1 zmap).mpr hc] at h
        exact Option.noConfusion h
      simp [hmem, ih, h]

theorem align_matched_eq (s1 s2 : TimeSeriesData) (h1 : s1.timestamps.Nodup)
    (hl1 : s1.timestamps.length = s1.closePrices.length) :
    alignTimeSeries s1 s2 =
      if ((s2.timestamps.zip s2.closePrices).filter
            (fun p => p.1 ∈ s1.timestamps)).length < 3 then none
      else some
        { prices1 := ((s2.timestamps.zip s2.closePrices).filter
            (fun p => p.1 ∈ s1.timestamps)).map
              (fun p => ((s1.timestamps.zip s1.closePrices).lookup p.1).getD 0),
          prices2 := ((s2.timestamps.zip s2.closePrices).filter
            (fun p => p.1 ∈ s1.timestamps)).map (fun p => p.2),
          timestamps := ((s2.timestamps.zip s2.closePrices).filter
            (fun p => p.1 ∈ s1.timestamps)).map (fun p => p.1) } := by
  have hkeys : (s1.timestamps.zip s1.closePrices).map Prod.fst = s1.timestamps :=
    List.map_fst_zip _ _ (le_of_eq hl1)
  have hnodup : ((s1.timestamps.zip s1.closePrices).map Prod.fst).Nodup := by
    rw [hkeys]; exact h1
  have hlk : ∀ k : ℤ, ((s1.timestamps.zip s1.closePrices).reverse).lookup k =
      (s1.timestamps.zip s1.closePrices).lookup k :=
    fun k => lookup_reverse_of_nodup k _ hnodup
  simp only [alignTimeSeries, foldl_cons_eq_reverse_append, List.append_nil, hlk,
    filterMap_lookup_eq_map_filter, hkeys, List.length_map, List.map_map, Function.comp_def]

/-- A first series with timestamps `[1, 2, 3]` (the spec's example). -/
def alignExampleSeries1 : TimeSeriesData :=
  { marketTicker := "A", eventTicker := "E1", eventTitle := none, title := none,
    timestamps := [1, 2, 3], closePrices := [10, 20, 30], volumes := [0, 0, 0] }

/-- A second series with timestamps `[2, 3, 4]` (the spec's example). -/
def alignExampleSeries2 : TimeSeriesData :=
  { marketTicker := "B", eventTicker := "E2", eventTitle := none, title := none,
    timestamps := [2, 3, 4], closePrices := [5, 6, 7], volumes := [0, 0, 0] }

/-- Counterexample to claim C3: on series with timestamps `[1, 2, 3]` and
`[2, 3, 4]` only 2 timestamps overlap, so `alignTimeSeries` returns `none`
rather than an aligned pair with timestamps `[2, 3]` as the claim asserts. -/
theorem alignTimeSeries_example_returns_none :
    alignTimeSeries alignExampleSeries1 alignExampleSeries2 = none
  ∧ ¬ ∃ a : AlignedPair, alignTimeSeries alignExampleSeries1 alignExampleSeries2 = some a
      ∧ a.timestamps = [2, 3] := by
  refine ⟨by decide, ?_⟩
  rintro ⟨a, ha, -⟩
  rw [(by decide : alignTimeSeries alignExampleSeries1 alignExampleSeries2 = none)] at ha
  exact Option.noConfusion ha

/-- Claim C3 (amended): when the first series has distinct timestamps and
both series pair timestamps with prices positionally, `alignTimeSeries`
keeps exactly the second series' timestamped entries whose timestamp also
occurs in the first series, in the second series' order, pairing the first
series' price (by timestamp lookup) with the second series' price; it
returns `none` when fewer than 3 such entries exist — in particular on
timestamps `[1, 2, 3]` vs `[2, 3, 4]` (overlap `[2, 3]`, size 2) it returns
`none`, and an overlap of size ≥ 3 yields the aligned pair. -/
theorem alignTimeSeries_spec (s1 s2 : TimeSeriesData) (h1 : s1.timestamps.Nodup)
    (hl1 : s1.timestamps.length = s1.closePrices.length) :
    (((s2.timestamps.zip s2.closePrices).filter
        (fun p => p.1 ∈ s1.timestamps)).length < 3 →
      alignTimeSeries s1 s2 = none)
  ∧ (3 ≤ ((s2.timestamps.zip s2.closePrices).filter
        (fun p => p.1 ∈ s1.timestamps)).length →
      alignTimeSeries s1 s2 = some
        { prices1 := ((s2.timestamps.zip s2.closePrices).filter
            (fun p => p.1 ∈ s1.timestamps)).map
              (fun p => ((s1.timestamps.zip s1.closePrices).lookup p.1).getD 0),
          prices2 := ((s2.timestamps.zip s2.closePrices).filter
            (fun p => p.1 ∈ s1.timestamps)).map (fun p => p.2),
          timestamps := ((s2.timestamps.zip s2.closePrices).filter
            (fun p => p.1 ∈ s1.timestamps)).map (fun p => p.1) }) := by
  rw [align_matched_eq s1 s2 h1 hl1]
  constructor
  · intro hlt
    rw [if_pos hlt]
  · intro hge
    rw [if_neg (not_lt.mpr hge)]

/-- Witness for claim C3 (amended): timestamps `[1, 2, 3, 4]` vs
`[2, 3, 4, 5]` overlap in `[2, 3, 4]`, and the aligned pair carries the
matching prices of both series. -/
theorem alignTimeSeries_spec_witness :
    alignTimeSeries
      { marketTicker := "A", eventTicker := "E1", eventTitle := none, title := none,
        timestamps := [1, 2, 3, 4], closePrices := [10, 20, 30, 40], volumes := [0, 0, 0, 0] }
      { marketTicker := "B", eventTicker := "E2", eventTitle := none, title := none,
        timestamps := [2, 3, 4, 5], closePrices := [5, 6, 7, 8], volumes := [0, 0, 0, 0] } =
      some { prices1 := [20, 30, 40], prices2 := [5, 6, 7], timestamps := [2, 3, 4] } := by
  have h := (alignTimeSeries_spec
    { marketTicker := "A", eventTicker := "E1", eventTitle := none, title := none,
      timestamps := [1, 2, 3, 4], closePrices := [10, 20, 30, 40], volumes := [0, 0, 0, 0] }
    { marketTicker := "B", eventTicker := "E2", eventTitle := none, title := none,
      timestamps := [2, 3, 4, 5], closePrices := [5, 6, 7, 8], volumes := [0, 0, 0, 0] }
    (by decide) (by decide)).2 (by decide)
  rw [h]
  decide

set_option maxRecDepth 4000 in
/-- Counterexample to claim C5: over 120 entities with window size 50 the
run forms only 2 analysis windows (not 3), and entity 100 belongs to no
analyzed window. -/
theorem analysisWindows_claim_false :
    (analysisWindows (List.range 120) 50).length = 2
  ∧ (100 : ℕ) ∉ (analysisWindows (List.range 120) 50).flatten := by
  decide

/-- Claim C5 (amended): the run analyzes at most two windows — the first
`min(n, window_size)` entities, and, when `n > window_size`, the consecutive
non-overlapping slice from `window_size` to `min(2·window_size, n)` provided
it has at least 2 elements; over 120 entities with window size 50 this gives
exactly 2 windows of sizes 50 and 50, covering exactly the first 100
entities, so entities beyond index 99 are never analyzed. -/
theorem analysisWindows_spec :
    (∀ (α : Type) (l : List α) (w : ℕ), l.length ≤ w → analysisWindows l w = [l])
  ∧ (∀ (α : Type) (l : List α) (w : ℕ), 2 ≤ w → w < l.length →
      analysisWindows l w =
        if l.length < w + 2 then [l.take w]
        else [l.take w, (l.take (min (w * 2) l.length)).drop w])
  ∧ ((analysisWindows (List.range 120) 50).map List.length = [50, 50])
  ∧ ((analysisWindows (List.range 120) 50).flatten = List.range 100) := by
  have hfull : ∀ (α : Type) (l : List α) (w : ℕ), l.length ≤ w → analysisWindows l w = [l] := by
    intro α l w h
    unfold analysisWindows
    rw [if_neg (by omega)]
    rcases lt_or_eq_of_le h with h' | h'
    · rw [if_neg (by omega)]
    · rw [if_pos (by omega), ← h', List.take_length]
  have hsplit : ∀ (α : Type) (l : List α) (w : ℕ), 2 ≤ w → w < l.length →
      analysisWindows l w =
        if l.length < w + 2 then [l.take w]
        else [l.take w, (l.take (min (w * 2) l.length)).drop w] := by
    intro α l w h2 hlt
    unfold analysisWindows
    rw [if_pos hlt, if_pos (le_of_lt hlt)]
    have hlen : ((l.take (min (w * 2) l.length)).drop w).length = min (w * 2) l.length - w := by
      simp [List.length_drop, List.length_take]
    by_cases hsmall : l.length < w + 2
    · have hn : ¬ 2 ≤ ((l.take (min (w * 2) l.length)).drop w).length := by
        rw [hlen]; omega
      rw [if_neg hn, if_pos hsmall]
    · have hp : 2 ≤ ((l.take (min (w * 2) l.length)).drop w).length := by
        rw [hlen]; omega
      rw [if_pos hp, if_neg hsmall]
  have hwin : analysisWindows (List.range 120) 50 =
      [(List.range 120).take 50, ((List.range 120).take (min (50 * 2) (List.range 120).length)).drop 50] := by
    rw [hsplit ℕ (List.range 120) 50 (by norm_num) (by simp)]
    rw [if_neg (by simp)]
  refine ⟨hfull, hsplit, ?_, ?_⟩
  · rw [hwin]
    simp
  · rw [hwin]
    simp only [List.flatten_cons, List.flatten_nil, List.append_nil, List.length_range]
    rw [(by norm_num : min (50 * 2) 120 = 100)]
    have hts : (List.range 120).take 50 = ((List.range 120).take 100).take 50 := by
      rw [List.take_take]
      norm_num
    rw [hts, List.take_append_drop]
    simp [List.take_range]

/-- Witness for claim C5 (amended): a 1-element entity list with window size
2 is analyzed as a single window. -/
theorem analysisWindows_spec_witness : analysisWindows [(0 : ℕ)] 2 = [[0]] :=
  analysisWindows_spec.1 ℕ [0] 2 (by norm_num)

theorem filterMap_filter_ne_of_none {α β : Type} [DecidableEq α]
    (f : α → Option β) (m : α) (hf : f m = none) (l : List α) :
    l.filterMap f = (l.filter (fun x => x ≠ m)).filterMap f := by
  induction l with
  | nil => rfl
  | cons a t ih =>
    rw [List.filter_cons]
    by_cases ha : a = m
    · subst ha
      rw [if_neg (by simp)]
      rw [List.filterMap_cons, hf, ih]
    · rw [if_pos (by simp [ha])]
      cases hfa : f a <;> simp [List.filterMap_cons, hfa, ih]

/-- Claim C7: a transport failure of the fetch collaborator for one entity
is absorbed (the catch block yields `none`, nothing is thrown), every pair
involving that entity is dropped from the batch results, and the batch
produces exactly the records of the remaining entities. -/
theorem fetch_failure_isolated
    (response : MarketRef → Except String (Option (List CandlestickData)))
    (markets : List MarketRef) (m : MarketRef) (e : String)
    (he : response m = .error e) :
    fetchMarketTimeSeries (response m) m = none
  ∧ analyzeMultipleMarkets response markets =
      analyzeMultipleMarkets response (markets.filter (fun x => x ≠ m)) := by
  have hnone : fetchMarketTimeSeries (response m) m = none := by
    rw [he]
    rfl
  refine ⟨hnone, ?_⟩
  unfold analyzeMultipleMarkets
  rw [filterMap_filter_ne_of_none (fun x => fetchMarketTimeSeries (response x) x) m hnone]

/-- A fetch collaborator that always throws a transport failure. -/
def failingResponse : MarketRef → Except String (Option (List CandlestickData)) :=
  fun _ => .error "boom"

/-- A concrete market reference. -/
def failingMarket : MarketRef :=
  { eventTicker := "E", marketTicker := "M", title := "T", eventTitle := none }

/-- Witness for claim C7: a collaborator that always throws makes the
single-market batch produce the same (empty) result as the batch without
that market. -/
theorem fetch_failure_isolated_witness :
    fetchMarketTimeSeries (failingResponse failingMarket) failingMarket = none
  ∧ analyzeMultipleMarkets failingResponse [failingMarket] =
      analyzeMultipleMarkets failingResponse
        ([failingMarket].filter (fun x => x ≠ failingMarket)) :=
  fetch_failure_isolated failingResponse [failingMarket] failingMarket "boom" rfl

theorem pairEmission_characterization (s1 s2 : TimeSeriesData) :
    (if s1.eventTicker = s2.eventTicker then none else pairStep s1 s2) =
      (match alignTimeSeries s1 s2 with
       | none => none
       | some aligned =>
         if s1.eventTicker ≠ s2.eventTicker ∧ 10 ≤ aligned.timestamps.length ∧
             calculateReturns aligned.prices1 ≠ [] ∧ calculateReturns aligned.prices2 ≠ []
         then some { market1 := s1.marketTicker, market2 := s2.marketTicker,
                     event1Title := s1.eventTitle, event2Title := s2.eventTitle,
                     correlation := calculateCorrelation (calculateReturns aligned.prices1)
                       (calculateReturns aligned.prices2),
                     dataPoints := aligned.timestamps.length }
         else none) := by
  by_cases heq : s1.eventTicker = s2.eventTicker
  · rw [if_pos heq]
    cases halign : alignTimeSeries s1 s2 with
    | none => rfl
    | some a => simp [heq]
  · rw [if_neg heq]
    rw [pairStep]
    cases halign : alignTimeSeries s1 s2 with
    | none => rfl
    | some a =>
      simp only []
      by_cases h10 : a.timestamps.length < 10
      · rw [if_pos h10]
        rw [if_neg]
        intro hc
        omega
      · rw [if_neg h10]
        by_cases hr : 0 < (calculateReturns a.prices1).length ∧
            0 < (calculateReturns a.prices2).length
        · rw [if_pos hr, if_pos]
          refine ⟨heq, by omega, ?_, ?_⟩
          · exact List.length_pos.mp hr.1
          · exact List.length_pos.mp hr.2
        · rw [if_neg hr, if_neg]
          intro hc
          exact hr ⟨List.length_pos.mpr hc.2.2.1, List.length_pos.mpr hc.2.2.2⟩

theorem innerPairLoop_spec (s1 : TimeSeriesData) (rest : List TimeSeriesData) :
    innerPairLoop s1 rest =
      ((rest.map (fun b => (s1, b))).filterMap (fun q =>
        match alignTimeSeries q.1 q.2 with
        | none => none
        | some aligned =>
          if q.1.eventTicker ≠ q.2.eventTicker ∧ 10 ≤ aligned.timestamps.length ∧
              calculateReturns aligned.prices1 ≠ [] ∧ calculateReturns aligned.prices2 ≠ []
          then some { market1 := q.1.marketTicker, market2 := q.2.marketTicker,
                      event1Title := q.1.eventTitle, event2Title := q.2.eventTitle,
                      correlation := calculateCorrelation (calculateReturns aligned.prices1)
                        (calculateReturns aligned.prices2),
                      dataPoints := aligned.timestamps.length }
          else none),
       ((rest.map (fun b => (s1, b))).filter
          (fun q => q.1.eventTicker = q.2.eventTicker)).length) := by
  induction rest with
  | nil => rfl
  | cons s2 t ih =>
    simp only [innerPairLoop, ih, List.map_cons, List.filterMap_cons, List.filter_cons]
    rw [← pairEmission_characterization s1 s2]
    by_cases heq : s1.eventTicker = s2.eventTicker
    · simp [heq]
    · simp only [if_neg heq, heq, decide_eq_true_eq]
      cases hps : pairStep s1 s2 <;> simp [hps, heq]

/-- Claim C2: over the successfully fetched series, the pairwise loop visits
each unordered pair `(i, j)`, `i < j`, exactly once and emits exactly one
record for it iff the event tickers differ, alignment succeeds with at least
10 aligned samples, and both returns sequences are non-empty; the record's
correlation is the Pearson correlation of the two returns sequences and its
`dataPoints` is the aligned sample count.  Same-event pairs are counted. -/
theorem analyzeMultipleMarkets_pairs_spec (tsd : List TimeSeriesData) :
    (analyzePairsLoop tsd).1 = (upairs tsd).filterMap (fun q =>
        match alignTimeSeries q.1 q.2 with
        | none => none
        | some aligned =>
          if q.1.eventTicker ≠ q.2.eventTicker ∧ 10 ≤ aligned.timestamps.length ∧
              calculateReturns aligned.prices1 ≠ [] ∧ calculateReturns aligned.prices2 ≠ []
          then some { market1 := q.1.marketTicker, market2 := q.2.marketTicker,
                      event1Title := q.1.eventTitle, event2Title := q.2.eventTitle,
                      correlation := calculateCorrelation (calculateReturns aligned.prices1)
                        (calculateReturns aligned.prices2),
                      dataPoints := aligned.timestamps.length }
          else none)
  ∧ (analyzePairsLoop tsd).2 =
      ((upairs tsd).filter (fun q => q.1.eventTicker = q.2.eventTicker)).length := by
  induction tsd with
  | nil => exact ⟨rfl, rfl⟩
  | cons s1 rest ih =>
    rw [analyzePairsLoop, upairs]
    rw [List.filterMap_append, List.filter_append, List.length_append]
    rw [innerPairLoop_spec s1 rest]
    exact ⟨by rw [ih.1], by rw [ih.2]⟩

theorem alignTimeSeries_lengths (s1 s2 : TimeSeriesData) (a : AlignedPair)
    (h : alignTimeSeries s1 s2 = some a) :
    a.prices1.length = a.timestamps.length ∧ a.prices2.length = a.timestamps.length := by
  simp only [alignTimeSeries] at h
  split at h
  · exact Option.noConfusion h
  · rw [Option.some_inj] at h
    subst h
    simp

/-- Claim C10: every pair that passes the aligned-sample-count ≥ 10 check
has returns sequences of length `aligned − 1 ≥ 9 > 0`, so the empty-returns
guard never fires and the pair always emits a record. -/
theorem aligned_pair_always_emits (s1 s2 : TimeSeriesData) (a : AlignedPair)
    (halign : alignTimeSeries s1 s2 = some a) (h10 : ¬ a.timestamps.length < 10) :
    (calculateReturns a.prices1).length = a.timestamps.length - 1
  ∧ (calculateReturns a.prices2).length = a.timestamps.length - 1
  ∧ 9 ≤ (calculateReturns a.prices1).length
  ∧ 9 ≤ (calculateReturns a.prices2).length
  ∧ ∃ r : CorrelationResult, pairStep s1 s2 = some r := by
  obtain ⟨h1, h2⟩ := alignTimeSeries_lengths s1 s2 a halign
  have hr1 : (calculateReturns a.prices1).length = a.timestamps.length - 1 := by
    rw [calculateReturns_length, h1]
  have hr2 : (calculateReturns a.prices2).length = a.timestamps.length - 1 := by
    rw [calculateReturns_length, h2]
  refine ⟨hr1, hr2, by omega, by omega, ?_⟩
  refine ⟨{ market1 := s1.marketTicker, market2 := s2.marketTicker,
            event1Title := s1.eventTitle, event2Title := s2.eventTitle,
            correlation := calculateCorrelation (calculateReturns a.prices1)
              (calculateReturns a.prices2),
            dataPoints := a.timestamps.length }, ?_⟩
  rw [pairStep, halign]
  simp only []
  rw [if_neg h10, if_pos ⟨by omega, by omega⟩]

/-- First series of the claim C10 witness: 10 timestamps shared with the
second series. -/
def denseSeries1 : TimeSeriesData :=
  { marketTicker := "A", eventTicker := "E1", eventTitle := none, title := none,
    timestamps := [0, 1, 2, 3, 4, 5, 6, 7, 8, 9],
    closePrices := [1, 2, 1, 2, 1, 2, 1, 2, 1, 2],
    volumes := [0, 0, 0, 0, 0, 0, 0, 0, 0, 0] }

/-- Second series of the claim C10 witness. -/
def denseSeries2 : TimeSeriesData :=
  { marketTicker := "B", eventTicker := "E2", eventTitle := none, title := none,
    timestamps := [0, 1, 2, 3, 4, 5, 6, 7, 8, 9],
    closePrices := [2, 1, 2, 1, 2, 1, 2, 1, 2, 1],
    volumes := [0, 0, 0, 0, 0, 0, 0, 0, 0, 0] }

/-- The aligned pair of the two witness series. -/
def denseAligned : AlignedPair :=
  { prices1 := [1, 2, 1, 2, 1, 2, 1, 2, 1, 2],
    prices2 := [2, 1, 2, 1, 2, 1, 2, 1, 2, 1],
    timestamps := [0, 1, 2, 3, 4, 5, 6, 7, 8, 9] }

/-- Witness for claim C10 at two concrete series with 10 aligned samples. -/
theorem aligned_pair_always_emits_witness :
    (calculateReturns denseAligned.prices1).length = denseAligned.timestamps.length - 1
  ∧ (calculateReturns denseAligned.prices2).length = denseAligned.timestamps.length - 1
  ∧ 9 ≤ (calculateReturns denseAligned.prices1).length
  ∧ 9 ≤ (calculateReturns denseAligned.prices2).length
  ∧ ∃ r : CorrelationResult, pairStep denseSeries1 denseSeries2 = some r :=
  aligned_pair_always_emits denseSeries1 denseSeries2 denseAligned (by decide) (by decide)

/-- The (non-strict) priority order of the deduplicator: fewer data points,
or equally many with no larger absolute correlation. -/
def rankLE (c b : CorrelationResult) : Prop :=
  c.dataPoints < b.dataPoints ∨
    (c.dataPoints = b.dataPoints ∧ |c.correlation| ≤ |b.correlation|)

theorem rankLE_refl (c : CorrelationResult) : rankLE c c :=
  Or.inr ⟨rfl, le_refl _⟩

theorem rankLE_trans (a b c : CorrelationResult) (h1 : rankLE a b) (h2 : rankLE b c) :
    rankLE a c := by
  rcases h1 with h1 | ⟨h1e, h1le⟩ <;> rcases h2 with h2 | ⟨h2e, h2le⟩
  · exact Or.inl (by omega)
  · exact Or.inl (by omega)
  · exact Or.inl (by omega)
  · exact Or.inr ⟨by omega, le_trans h1le h2le⟩

theorem not_beats_iff (c b : CorrelationResult) :
    ¬ (b.dataPoints < c.dataPoints ∨
        (c.dataPoints = b.dataPoints ∧ |b.correlation| < |c.correlation|)) ↔ rankLE c b := by
  constructor
  · intro h
    push_neg at h
    obtain ⟨h1, h2⟩ := h
    rcases Nat.lt_or_ge c.dataPoints b.dataPoints with hlt | hge
    · exact Or.inl hlt
    · have he : c.dataPoints = b.dataPoints := by omega
      exact Or.inr ⟨he, h2 he⟩
  · intro h hc
    rcases h with h | ⟨he, hle⟩
    · rcases hc with hc | ⟨hce, hcl⟩ <;> omega
    · rcases hc with hc | ⟨hce, hcl⟩
      · omega
      · exact absurd hcl (not_lt.mpr hle)

theorem beats_rankLE (c b : CorrelationResult)
    (h : b.dataPoints < c.dataPoints ∨
      (c.dataPoints = b.dataPoints ∧ |b.correlation| < |c.correlation|)) : rankLE b c := by
  rcases h with h | ⟨he, hlt⟩
  · exact Or.inl h
  · exact Or.inr ⟨he.symm, le_of_lt hlt⟩

theorem lookup_map_overwrite (m : List (String × CorrelationResult)) (k : String)
    (v : CorrelationResult) (h : k ∈ m.map Prod.fst) :
    (m.map (fun p => if p.1 = k then (k, v) else p)).lookup k = some v := by
  induction m with
  | nil => simp at h
  | cons p t ih =>
    rw [List.map_cons]
    by_cases hp : p.1 = k
    · rw [if_pos hp, lookup_cons_self]
    · rw [if_neg hp, lookup_cons_ne k p.1 p.2 _ (fun hk => hp hk.symm)]
      rw [List.map_cons] at h
      rcases List.mem_cons.mp h with h' | h'
      · exact absurd h'.symm hp
      · exact ih h'

theorem lookup_map_overwrite_ne (m : List (String × CorrelationResult)) (k k' : String)
    (v : CorrelationResult) (h : k' ≠ k) :
    (m.map (fun p => if p.1 = k then (k, v) else p)).lookup k' = m.lookup k' := by
  induction m with
  | nil => rfl
  | cons p t ih =>
    rw [List.map_cons]
    by_cases hp : p.1 = k
    · rw [if_pos hp, lookup_cons_ne k' k v _ h, ih, lookup_cons_ne k' p.1 p.2 t (hp ▸ h)]
    · by_cases hk' : k' = p.1
      · subst hk'
        rw [if_neg hp]
        rw [lookup_cons_self, lookup_cons_self]
      · rw [if_neg hp, lookup_cons_ne k' p.1 p.2 _ hk', lookup_cons_ne k' p.1 p.2 t hk', ih]

theorem contains_iff_mem_keys (m : List (String × CorrelationResult)) (k : String) :
    (m.map Prod.fst).contains k = true ↔ k ∈ m.map Prod.fst := by
  simp [List.contains_iff_exists_mem_beq, beq_iff_eq, eq_comm]

theorem keys_mapSet (m : List (String × CorrelationResult)) (k : String)
    (v : CorrelationResult) :
    (mapSet m k v).map Prod.fst =
      if k ∈ m.map Prod.fst then m.map Prod.fst else m.map Prod.fst ++ [k] := by
  unfold mapSet
  by_cases h : k ∈ m.map Prod.fst
  · rw [if_pos ((contains_iff_mem_keys m k).mpr h), if_pos h, List.map_map]
    refine List.map_congr_left ?_
    intro p hp
    by_cases hk : p.1 = k
    · simp [hk]
    · simp [hk]
  · rw [if_neg (fun hc => h ((contains_iff_mem_keys m k).mp hc)), if_neg h]
    simp

theorem lookup_mapSet_self (m : List (String × CorrelationResult)) (k : String)
    (v : CorrelationResult) : (mapSet m k v).lookup k = some v := by
  unfold mapSet
  by_cases h : k ∈ m.map Prod.fst
  · rw [if_pos ((contains_iff_mem_keys m k).mpr h)]
    exact lookup_map_overwrite m k v h
  · rw [if_neg (fun hc => h ((contains_iff_mem_keys m k).mp hc))]
    rw [lookup_append_right k m _ h, lookup_cons_self]

theorem lookup_mapSet_ne (m : List (String × CorrelationResult)) (k k' : String)
    (v : CorrelationResult) (h : k' ≠ k) : (mapSet m k v).lookup k' = m.lookup k' := by
  unfold mapSet
  by_cases hm : (m.map Prod.fst).contains k
  · rw [if_pos hm]
    exact lookup_map_overwrite_ne m k k' v h
  · rw [if_neg hm]
    by_cases hk' : k' ∈ m.map Prod.fst
    · exact lookup_append_left k' m _ hk'
    · rw [lookup_append_right k' m _ hk', lookup_cons_ne k' k v [] h]
      rw [(lookup_eq_none_iff k' m).mpr hk']
      rfl

theorem nodup_keys_mapSet (m : List (String × CorrelationResult)) (k : String)
    (v : CorrelationResult) (h : (m.map Prod.fst).Nodup) :
    ((mapSet m k v).map Prod.fst).Nodup := by
  rw [keys_mapSet]
  by_cases hm : k ∈ m.map Prod.fst
  · rw [if_pos hm]
    exact h
  · rw [if_neg hm]
    simp [List.nodup_append, h, hm]

theorem keys_dedupStep (m : List (String × CorrelationResult)) (c : CorrelationResult) :
    (dedupStep m c).map Prod.fst =
      if pairKey c ∈ m.map Prod.fst then m.map Prod.fst
      else m.map Prod.fst ++ [pairKey c] := by
  unfold dedupStep
  simp only []
  cases hl : m.lookup (pairKey c) with
  | none =>
    have hmem : pairKey c ∉ m.map Prod.fst := (lookup_eq_none_iff _ m).mp hl
    rw [keys_mapSet, if_neg hmem]
  | some e =>
    have hmem : pairKey c ∈ m.map Prod.fst := by
      by_contra hc
      rw [(lookup_eq_none_iff _ m).mpr hc] at hl
      exact Option.noConfusion hl
    rw [if_pos hmem]
    simp only []
    by_cases hb : e.dataPoints < c.dataPoints ∨
        (c.dataPoints = e.dataPoints ∧ |e.correlation| < |c.correlation|)
    · rw [if_pos hb, keys_mapSet, if_pos hmem]
    · rw [if_neg hb]

theorem nodup_keys_dedupStep (m : List (String × CorrelationResult)) (c : CorrelationResult)
    (h : (m.map Prod.fst).Nodup) : ((dedupStep m c).map Prod.fst).Nodup := by
  rw [keys_dedupStep]
  by_cases hm : pairKey c ∈ m.map Prod.fst
  · rw [if_pos hm]
    exact h
  · rw [if_neg hm]
    simp [List.nodup_append, h, hm]

theorem lookup_dedupStep_ne (m : List (String × CorrelationResult)) (c : CorrelationResult)
    (k : String) (h : k ≠ pairKey c) : (dedupStep m c).lookup k = m.lookup k := by
  unfold dedupStep
  simp only []
  cases hl : m.lookup (pairKey c) with
  | none =>
    exact lookup_mapSet_ne m _ k c h
  | some e =>
    simp only []
    by_cases hb : e.dataPoints < c.dataPoints ∨
        (c.dataPoints = e.dataPoints ∧ |e.correlation| < |c.correlation|)
    · rw [if_pos hb]
      exact lookup_mapSet_ne m _ k c h
    · rw [if_neg hb]

theorem lookup_dedupStep_self (m : List (String × CorrelationResult)) (c : CorrelationResult) :
    ∃ r : CorrelationResult, (dedupStep m c).lookup (pairKey c) = some r ∧
      (r = c ∨ m.lookup (pairKey c) = some r) ∧ rankLE c r ∧
      (∀ b : CorrelationResult, m.lookup (pairKey c) = some b → rankLE b r) := by
  unfold dedupStep
  simp only []
  cases hl : m.lookup (pairKey c) with
  | none =>
    refine ⟨c, ?_, Or.inl rfl, rankLE_refl c, ?_⟩
    · exact lookup_mapSet_self m _ c
    · intro b hb
      exact Option.noConfusion hb
  | some e =>
    simp only []
    by_cases hb : e.dataPoints < c.dataPoints ∨
        (c.dataPoints = e.dataPoints ∧ |e.correlation| < |c.correlation|)
    · rw [if_pos hb]
      refine ⟨c, lookup_mapSet_self m _ c, Or.inl rfl, rankLE_refl c, ?_⟩
      intro b hbe
      rw [Option.some_inj] at hbe
      subst hbe
      exact beats_rankLE c e hb
    · rw [if_neg hb]
      refine ⟨e, hl, Or.inr rfl, (not_beats_iff c e).mp hb, ?_⟩
      intro b hbe
      rw [Option.some_inj] at hbe
      subst hbe
      exact rankLE_refl e

theorem mem_keys_dedupStep (m : List (String × CorrelationResult)) (c : CorrelationResult)
    (k : String) :
    k ∈ (dedupStep m c).map Prod.fst ↔ k ∈ m.map Prod.fst ∨ k = pairKey c := by
  rw [keys_dedupStep]
  by_cases hm : pairKey c ∈ m.map Prod.fst
  · rw [if_pos hm]
    constructor
    · exact Or.inl
    · rintro (h | rfl)
      · exact h
      · exact hm
  · rw [if_neg hm]
    simp

theorem foldl_dedupStep_spec (l : List CorrelationResult) :
    ∀ m : List (String × CorrelationResult), (m.map Prod.fst).Nodup →
    (((l.foldl dedupStep m).map Prod.fst).Nodup
  ∧ (∀ k : String, k ∈ (l.foldl dedupStep m).map Prod.fst ↔
      k ∈ m.map Prod.fst ∨ k ∈ l.map pairKey)
  ∧ (∀ (k : String) (r : CorrelationResult), (l.foldl dedupStep m).lookup k = some r →
      ((r ∈ l ∧ pairKey r = k) ∨ m.lookup k = some r)
      ∧ (∀ c ∈ l, pairKey c = k → rankLE c r)
      ∧ (∀ b : CorrelationResult, m.lookup k = some b → rankLE b r))) := by
  induction l with
  | nil =>
    intro m hm
    simp only [List.foldl_nil]
    refine ⟨hm, by simp, ?_⟩
    intro k r h
    refine ⟨Or.inr h, by simp, ?_⟩
    intro b hb
    rw [h] at hb
    rw [Option.some_inj] at hb
    subst hb
    exact rankLE_refl r
  | cons c t ih =>
    intro m hm
    have hm1 : ((dedupStep m c).map Prod.fst).Nodup := nodup_keys_dedupStep m c hm
    obtain ⟨H1, H2, H3⟩ := ih (dedupStep m c) hm1
    rw [List.foldl_cons]
    refine ⟨H1, ?_, ?_⟩
    · intro k
      rw [H2 k, mem_keys_dedupStep m c k, List.map_cons]
      constructor
      · rintro ((h | h) | h)
        · exact Or.inl h
        · exact Or.inr (by simp [h])
        · exact Or.inr (List.mem_cons_of_mem _ h)
      · rintro (h | h)
        · exact Or.inl (Or.inl h)
        · rcases List.mem_cons.mp h with h' | h'
          · exact Or.inl (Or.inr h')
          · exact Or.inr h'
    · intro k r h
      obtain ⟨Ha, Hb, Hc⟩ := H3 k r h
      by_cases hkc : k = pairKey c
      · subst hkc
        obtain ⟨r₁, hr₁, hr₁mem, hr₁rank, hr₁mono⟩ := lookup_dedupStep_self m c
        refine ⟨?_, ?_, ?_⟩
        · rcases Ha with ⟨hrt, hkr⟩ | hlm
          · exact Or.inl ⟨List.mem_cons_of_mem _ hrt, hkr⟩
          · rw [hr₁] at hlm
            rw [Option.some_inj] at hlm
            subst hlm
            rcases hr₁mem with rfl | hm'
            · exact Or.inl ⟨List.mem_cons_self _ _, rfl⟩
            · exact Or.inr hm'
        · intro c' hc' hkc'
          rcases List.mem_cons.mp hc' with rfl | hct
          · exact rankLE_trans _ _ _ hr₁rank (Hc r₁ hr₁)
          · exact Hb c' hct hkc'
        · intro b hbm
          exact rankLE_trans _ _ _ (hr₁mono b hbm) (Hc r₁ hr₁)
      · have hne : (dedupStep m c).lookup k = m.lookup k := lookup_dedupStep_ne m c k hkc
        refine ⟨?_, ?_, ?_⟩
        · rcases Ha with ⟨hrt, hkr⟩ | hlm
          · exact Or.inl ⟨List.mem_cons_of_mem _ hrt, hkr⟩
          · rw [hne] at hlm
            exact Or.inr hlm
        · intro c' hc' hkc'
          rcases List.mem_cons.mp hc' with rfl | hct
          · exact absurd hkc'.symm hkc
          · exact Hb c' hct hkc'
        · intro b hbm
          refine Hc b ?_
          rw [hne]
          exact hbm

theorem lookup_of_mem_nodup :
    ∀ m : List (String × CorrelationResult), (m.map Prod.fst).Nodup →
      ∀ (k : String) (v : CorrelationResult), (k, v) ∈ m → m.lookup k = some v := by
  intro m
  induction m with
  | nil =>
    intro _ k v h
    simp at h
  | cons p t ihm =>
    intro hm k v h
    rw [List.map_cons, List.nodup_cons] at hm
    rcases List.mem_cons.mp h with hp | ht
    · rw [← hp]
      exact lookup_cons_self k v t
    · by_cases hk : k = p.1
      · exact absurd (hk ▸ (List.mem_map.mpr ⟨(k, v), ht, rfl⟩)) hm.1
      · rcases p with ⟨a, b⟩
        rw [lookup_cons_ne k a b t hk]
        exact ihm hm.2 k v ht

/-- Claim C4: `deduplicateCorrelations` keeps exactly one record per
distinct unordered pair key, chosen from the input, and the kept record has
at least as many data points as every other record of its key (ties broken
by absolute correlation); the output size is at most the input size, with
equality iff no pair key repeats. -/
theorem deduplicateCorrelations_spec (l : List CorrelationResult) :
    ((deduplicateCorrelations l).map pairKey).Nodup
  ∧ (∀ r ∈ deduplicateCorrelations l, r ∈ l)
  ∧ (∀ c ∈ l, ∃ r ∈ deduplicateCorrelations l, pairKey r = pairKey c)
  ∧ (∀ r ∈ deduplicateCorrelations l, ∀ c ∈ l, pairKey c = pairKey r →
      (c.dataPoints < r.dataPoints ∨
        (c.dataPoints = r.dataPoints ∧ |c.correlation| ≤ |r.correlation|)))
  ∧ (deduplicateCorrelations l).length ≤ l.length
  ∧ ((deduplicateCorrelations l).length = l.length ↔ (l.map pairKey).Nodup) := by
  obtain ⟨HN, HM, HV⟩ := foldl_dedupStep_spec l [] (by simp)
  have hdef : deduplicateCorrelations l = (l.foldl dedupStep []).map Prod.snd := rfl
  have hkeyc : ∀ p ∈ l.foldl dedupStep [], pairKey p.2 = p.1 := by
    intro p hp
    have hl : (l.foldl dedupStep []).lookup p.1 = some p.2 :=
      lookup_of_mem_nodup _ HN p.1 p.2 hp
    rcases (HV p.1 p.2 hl).1 with ⟨_, hk⟩ | habs
    · exact hk
    · exact Option.noConfusion habs
  have hmem : ∀ r ∈ deduplicateCorrelations l,
      ∃ p ∈ l.foldl dedupStep [], p.2 = r := by
    intro r hr
    rw [hdef] at hr
    exact List.mem_map.mp hr
  have hmapkeys : (deduplicateCorrelations l).map pairKey =
      (l.foldl dedupStep []).map Prod.fst := by
    rw [hdef, List.map_map]
    exact List.map_congr_left (fun p hp => hkeyc p hp)
  refine ⟨?_, ?_, ?_, ?_, ?_, ?_⟩
  · rw [hmapkeys]
    exact HN
  · intro r hr
    obtain ⟨p, hp, hpr⟩ := hmem r hr
    subst hpr
    have hl : (l.foldl dedupStep []).lookup p.1 = some p.2 :=
      lookup_of_mem_nodup _ HN p.1 p.2 hp
    rcases (HV p.1 p.2 hl).1 with ⟨hin, _⟩ | habs
    · exact hin
    · exact Option.noConfusion habs
  · intro c hc
    have hk : pairKey c ∈ (l.foldl dedupStep []).map Prod.fst :=
      (HM (pairKey c)).mpr (Or.inr (List.mem_map_of_mem pairKey hc))
    obtain ⟨p, hp, hpk⟩ := List.mem_map.mp hk
    refine ⟨p.2, ?_, ?_⟩
    · rw [hdef]
      exact List.mem_map_of_mem Prod.snd hp
    · rw [hkeyc p hp, hpk]
  · intro r hr c hc hck
    obtain ⟨p, hp, hpr⟩ := hmem r hr
    subst hpr
    have hl : (l.foldl dedupStep []).lookup p.1 = some p.2 :=
      lookup_of_mem_nodup _ HN p.1 p.2 hp
    exact (HV p.1 p.2 hl).2.1 c hc (by rw [hck, hkeyc p hp])
  · rw [hdef]
    have h1 : ((l.foldl dedupStep []).map Prod.snd).length =
        ((l.foldl dedupStep []).map Prod.fst).length := by
      simp
    rw [h1]
    have h2 : ((l.foldl dedupStep []).map Prod.fst).toFinset =
        (l.map pairKey).toFinset := by
      ext k
      simp only [List.mem_toFinset]
      rw [HM k]
      simp
    calc ((l.foldl dedupStep []).map Prod.fst).length
        = ((l.foldl dedupStep []).map Prod.fst).toFinset.card :=
          (List.toFinset_card_of_nodup HN).symm
      _ = (l.map pairKey).toFinset.card := by rw [h2]
      _ ≤ (l.map pairKey).length := List.toFinset_card_le _
      _ = l.length := List.length_map _ _
  · rw [hdef]
    have h1 : ((l.foldl dedupStep []).map Prod.snd).length =
        ((l.foldl dedupStep []).map Prod.fst).length := by
      simp
    have h2 : ((l.foldl dedupStep []).map Prod.fst).toFinset =
        (l.map pairKey).toFinset := by
      ext k
      simp only [List.mem_toFinset]
      rw [HM k]
      simp
    have h3 : ((l.foldl dedupStep []).map Prod.snd).length =
        (l.map pairKey).toFinset.card := by
      rw [h1, (List.toFinset_card_of_nodup HN).symm, h2]
    rw [h3]
    constructor
    · intro he
      have hd : (l.map pairKey).dedup.length = (l.map pairKey).length := by
        rw [← List.card_toFinset, he, List.length_map]
      have : (l.map pairKey).dedup = l.map pairKey :=
        (List.dedup_sublist _).eq_of_length hd
      exact List.dedup_eq_self.mp this
    · intro hn
      rw [List.toFinset_card_of_nodup hn, List.length_map]

/-- A concrete correlation record used by the deduplicator witnesses. -/
def tieRecord : CorrelationResult :=
  { market1 := "A", market2 := "B", correlation := 0, dataPoints := 5 }

/-- Witness for claim C4 on the singleton input `[tieRecord]`. -/
theorem deduplicateCorrelations_spec_witness : tieRecord ∈ [tieRecord] :=
  (deduplicateCorrelations_spec [tieRecord]).2.1 tieRecord
    (by rw [(rfl : deduplicateCorrelations [tieRecord] = [tieRecord])]; exact List.mem_cons_self _ _)

theorem dedupStep_preserves_rank (m : List (String × CorrelationResult))
    (c c1 : CorrelationResult)
    (h : ∃ b : CorrelationResult, m.lookup (pairKey c1) = some b ∧ rankLE c1 b) :
    ∃ b : CorrelationResult, (dedupStep m c).lookup (pairKey c1) = some b ∧ rankLE c1 b := by
  obtain ⟨b, hb, hrank⟩ := h
  by_cases hk : pairKey c1 = pairKey c
  · obtain ⟨r₁, hr₁, _, _, hmono⟩ := lookup_dedupStep_self m c
    refine ⟨r₁, ?_, ?_⟩
    · rw [hk]
      exact hr₁
    · refine rankLE_trans _ _ _ hrank (hmono b ?_)
      rw [← hk]
      exact hb
  · refine ⟨b, ?_, hrank⟩
    rw [lookup_dedupStep_ne m c _ hk]
    exact hb

theorem foldl_dedupStep_preserves_rank (c1 : CorrelationResult) (l : List CorrelationResult) :
    ∀ m : List (String × CorrelationResult),
      (∃ b : CorrelationResult, m.lookup (pairKey c1) = some b ∧ rankLE c1 b) →
      ∃ b : CorrelationResult,
        (l.foldl dedupStep m).lookup (pairKey c1) = some b ∧ rankLE c1 b := by
  induction l with
  | nil =>
    intro m h
    simpa using h
  | cons c t ih =>
    intro m h
    rw [List.foldl_cons]
    exact ih _ (dedupStep_preserves_rank m c c1 h)

theorem dedupStep_tie_noop (m : List (String × CorrelationResult)) (c1 c2 : CorrelationResult)
    (hkey : pairKey c2 = pairKey c1)
    (hdp : c2.dataPoints = c1.dataPoints) (hcorr : |c2.correlation| = |c1.correlation|)
    (h : ∃ b : CorrelationResult, m.lookup (pairKey c1) = some b ∧ rankLE c1 b) :
    dedupStep m c2 = m := by
  obtain ⟨b, hb, hrank⟩ := h
  unfold dedupStep
  simp only []
  rw [hkey, hb]
  simp only []
  rw [if_neg]
  intro hc
  rcases hc with hlt | ⟨heq, habs⟩
  · rcases hrank with h1 | ⟨h1, _⟩ <;> omega
  · rcases hrank with h1 | ⟨h1, h2⟩
    · omega
    · rw [hcorr] at habs
      exact absurd habs (not_lt.mpr h2)

/-- Claim C9: when a later record ties an earlier same-key record on both
data points and absolute correlation, the deduplicator's strictly-greater
comparisons never replace the incumbent, so the later record is irrelevant:
removing it does not change the result.  Hence for full ties the earliest
record wins and the merge is deterministic in input order. -/
theorem deduplicateCorrelations_tie_keeps_first (l1 l2 l3 : List CorrelationResult)
    (c1 c2 : CorrelationResult)
    (hkey : pairKey c2 = pairKey c1)
    (hdp : c2.dataPoints = c1.dataPoints)
    (hcorr : |c2.correlation| = |c1.correlation|) :
    deduplicateCorrelations (l1 ++ c1 :: (l2 ++ c2 :: l3)) =
      deduplicateCorrelations (l1 ++ c1 :: (l2 ++ l3)) := by
  unfold deduplicateCorrelations
  congr 1
  simp only [List.foldl_append, List.foldl_cons]
  congr 1
  refine dedupStep_tie_noop _ c1 c2 hkey hdp hcorr ?_
  refine foldl_dedupStep_preserves_rank c1 l2 _ ?_
  obtain ⟨r₁, hr₁, _, hrank, _⟩ := lookup_dedupStep_self (l1.foldl dedupStep []) c1
  exact ⟨r₁, hr₁, hrank⟩

/-- Witness for claim C9: a duplicate of a record tying itself on both
criteria is dropped, keeping the first occurrence. -/
theorem deduplicateCorrelations_tie_keeps_first_witness :
    deduplicateCorrelations ([] ++ tieRecord :: ([] ++ tieRecord :: [])) =
      deduplicateCorrelations ([] ++ tieRecord :: ([] ++ [])) :=
  deduplicateCorrelations_tie_keeps_first [] [] [] tieRecord tieRecord rfl rfl rfl
